import Mathlib

/-
Verification of velox/dwio/common/compression/PagedInputStream.cpp.

The C++ stream is shallowly embedded: raw pointers into buffers become
indices into Lean lists, the underlying ZeroCopyInputStream becomes a list
of chunks, machine integers become Int/Nat (the arithmetic in this file
never approaches 2^31/2^64 in the scenarios considered, and the member
field types live in the header file which is not part of the sources),
and DWIO_ENSURE / VELOX_CHECK failures become an error monad.

Ghost observation fields (headerReads, decompressCalls, decryptCalls, and
the seeks log of the input stream) are added to the state so that theorems
can speak about "a header was parsed", "decompress was invoked", etc.
They are write-only instrumentation: no operation reads them.
-/

namespace PagedInputStream

/-- Stream states, named as in the C++ enum: HEADER = awaiting header,
ORIGINAL = serving a raw block, START = serving a compressed block,
END = exhausted. -/
inductive State
  | HEADER
  | ORIGINAL
  | START
  | END
deriving DecidableEq, Repr

/-- Model of the underlying SeekableInputStream `input_`: the chunks it
will still hand out, the cumulative ByteCount of bytes handed out so far,
and a ghost log of the offsets passed to its seekToPosition. -/
structure InputStream where
  chunks : List (List Nat)
  byteCount : Nat
  seeks : List Int
deriving DecidableEq, Repr

/-- Modelled from the spec: the underlying chunked source's
`seekToPosition(offset)` ("repositions to an arbitrary previously-valid
offset"); its implementation is outside this file, so the model only
records the requested offset in the ghost seek log. -/
def InputStream.seekToPosition (offset : Int) (inp : InputStream) : InputStream :=
  { inp with seeks := inp.seeks ++ [offset] }

/-- Location of the C++ pointer `outputBufferPtr_`: null, or an offset
into the current input chunk (raw fast path), into the decompression
output buffer, or into the decryption buffer. -/
inductive OutLoc
  | none
  | input (pos : Int)
  | output (pos : Int)
  | decryptBuf (pos : Int)
deriving DecidableEq, Repr

/-- Pointer arithmetic `outputBufferPtr_ += d` (a null pointer stays null;
the C++ code never offsets it while null). -/
def OutLoc.advance : OutLoc → Int → OutLoc
  | .none, _ => .none
  | .input p, d => .input (p + d)
  | .output p, d => .output (p + d)
  | .decryptBuf p, d => .decryptBuf (p + d)

/-- Model of `outputBuffer_` (a DataBuffer): an allocation capacity and the
currently valid decompressed contents. -/
structure OutBuf where
  cap : Nat
  data : List Nat
deriving DecidableEq, Repr

/-- The whole mutable state of a PagedInputStream. `curChunk`/`inputPos`
model `inputBufferStart_`/`inputBufferPtr_`/`inputBufferPtrEnd_` (the view
into the most recent chunk, with `inputPos` the offset of the read
pointer); the final three fields are ghost counters. -/
structure PagedStream where
  input : InputStream
  curChunk : List Nat
  inputPos : Nat
  state : State
  remainingLength : Nat
  pendingSkip : Int
  bytesReturned : Int
  lastHeaderOffset : Int
  bytesReturnedAtLastHeaderOffset : Int
  lastWindowSize : Int
  outLoc : OutLoc
  outputBufferLength : Nat
  outputBuffer : Option OutBuf
  inputBufData : List Nat
  inputBufCap : Nat
  decryptionBuffer : Option (List Nat)
  headerReads : Nat
  decompressCalls : Nat
  decryptCalls : Nat
deriving DecidableEq, Repr

/-- Failure modes: each constructor corresponds to one DWIO_ENSURE /
VELOX_CHECK in the source, plus a model-only fuel marker for loops whose
termination the C++ code gets from finiteness of the input. -/
inductive Err
  | readPastEof
  | pendingSkipNonZero
  | backupWithoutNext
  | backupOutOfRange
  | invalidStreamState
  | negativeCount
  | fuelExhausted
deriving DecidableEq, Repr

/-- Decompressor capability: `getDecompressedLength` returns a length and
whether it is exact; `decompress` produces the decompressed bytes. -/
structure Decompressor where
  getDecompressedLength : List Nat → Nat × Bool
  decompress : List Nat → List Nat

/-- Optional capabilities `decrypter_` and `decompressor_`. -/
structure Caps where
  decrypter : Option (List Nat → List Nat)
  decompressor : Option Decompressor

/-- Bytes visible at an OutLoc (used when replaying a backed-up window). -/
def viewAt (s : PagedStream) (loc : OutLoc) (len : Nat) : List Nat :=
  match loc with
  | .none => []
  | .input p => (s.curChunk.drop p.toNat).take len
  | .output p =>
    match s.outputBuffer with
    | some b => (b.data.drop p.toNat).take len
    | none => []
  | .decryptBuf p =>
    match s.decryptionBuffer with
    | some d => (d.drop p.toNat).take len
    | none => []

/-- PagedInputStream::prepareOutputBuffer (lines 21-26): allocate a fresh
buffer of capacity `uncompressedLength` unless the existing one is big
enough. -/
def prepareOutputBuffer (uncompressedLength : Nat) (s : PagedStream) : PagedStream :=
  match s.outputBuffer with
  | .none => { s with outputBuffer := some ⟨uncompressedLength, []⟩ }
  | .some b =>
    if uncompressedLength > b.cap then
      { s with outputBuffer := some ⟨uncompressedLength, []⟩ }
    else
      s

/-- PagedInputStream::readBuffer (lines 28-41): pull the next chunk from
the underlying source; on exhaustion either fail (failOnEof) or move to
END with null buffer pointers. -/
def readBuffer (failOnEof : Bool) (s : PagedStream) : Except Err PagedStream :=
  match s.input.chunks with
  | [] =>
    if failOnEof then .error .readPastEof
    else .ok { s with state := .END, curChunk := [], inputPos := 0 }
  | c :: rest =>
    .ok { s with
      input := { s.input with chunks := rest, byteCount := s.input.byteCount + c.length },
      curChunk := c,
      inputPos := 0 }

/-- PagedInputStream::readByte (lines 43-51): refill the chunk view when
it is consumed, return 0 when a tolerated EOF moved the state to END,
otherwise deliver the byte under the read pointer and advance. -/
def readByte (failOnEof : Bool) (s : PagedStream) : Except Err (Nat × PagedStream) :=
  if s.inputPos = s.curChunk.length then
    match readBuffer failOnEof s with
    | .error e => .error e
    | .ok s' =>
      if s'.state = .END then .ok (0, s')
      else .ok (s'.curChunk.getD s'.inputPos 0, { s' with inputPos := s'.inputPos + 1 })
  else
    .ok (s.curChunk.getD s.inputPos 0, { s with inputPos := s.inputPos + 1 })

/-- The 24-bit header value formed from three header bytes
(line 54, 61-62): byte0 | byte1 << 8 | byte2 << 16. -/
def parseHeaderVal (b0 b1 b2 : Nat) : Nat :=
  b0 ||| (b1 <<< 8) ||| (b2 <<< 16)

/-- Decoding of a parsed header value (lines 63-68): bit 0 selects
ORIGINAL (raw) vs START (compressed); the remaining bits give the block
length. -/
def decodeHeader (b0 b1 b2 : Nat) : State × Nat :=
  let header := parseHeaderVal b0 b1 b2
  (if header &&& 1 = 1 then .ORIGINAL else .START, header >>> 1)

/-- PagedInputStream::readHeader (lines 53-72). The first byte is read
with failOnEof = false (EOF here is a clean end of stream), the second and
third with failOnEof = true. -/
def readHeader (s : PagedStream) : Except Err PagedStream :=
  match readByte false s with
  | .error e => .error e
  | .ok (b0, s1) =>
    let s1 := { s1 with
      lastHeaderOffset :=
        (s1.input.byteCount : Int)
          - ((s1.curChunk.length : Int) - (s1.inputPos : Int)) - 1,
      bytesReturnedAtLastHeaderOffset := s1.bytesReturned,
      headerReads := s1.headerReads + 1 }
    if s1.state ≠ .END then
      match readByte true s1 with
      | .error e => .error e
      | .ok (b1, s2) =>
        match readByte true s2 with
        | .error e => .error e
        | .ok (b2, s3) =>
          .ok { s3 with
            state := (decodeHeader b0 b1 b2).1,
            remainingLength := (decodeHeader b0 b1 b2).2 }
    else
      .ok { s1 with remainingLength := 0 }

/-- Reassembly loop of PagedInputStream::ensureInput (lines 91-102): pull
chunks (readBuffer with failOnEof = true, inlined) and copy into the
reassembly buffer until `target` bytes are gathered. The fuel argument is
a model artifact; callers pass the number of remaining chunks, which the
loop consumes one per iteration, so fuelExhausted is unreachable. -/
def assembleLoop (fuel : Nat) (target : Nat) (acc : List Nat) (s : PagedStream) :
    Except Err (List Nat × PagedStream) :=
  if acc.length < target then
    match s.input.chunks with
    | [] => .error .readPastEof
    | c :: rest =>
      match fuel with
      | 0 => .error .fuelExhausted
      | f + 1 =>
        let avail := min c.length (target - acc.length)
        assembleLoop f target (acc ++ c.take avail)
          { s with
            input := { s.input with chunks := rest, byteCount := s.input.byteCount + c.length },
            curChunk := c,
            inputPos := avail }
  else
    .ok (acc, s)

/-- PagedInputStream::ensureInput (lines 74-104): return the current
block's `remainingLength` bytes as one contiguous run. If the current
chunk already holds the whole block, point into it (zero-copy) and
advance by `availableInputBytes`; otherwise grow the reassembly buffer
and copy chunk by chunk. -/
def ensureInput (availableInputBytes : Nat) (s : PagedStream) :
    Except Err (List Nat × PagedStream) :=
  if s.remainingLength ≤ availableInputBytes then
    .ok ((s.curChunk.drop s.inputPos).take s.remainingLength,
      { s with inputPos := s.inputPos + availableInputBytes })
  else
    let cap := max s.inputBufCap s.remainingLength
    let acc := (s.curChunk.drop s.inputPos).take availableInputBytes
    let s1 := { s with inputPos := s.inputPos + availableInputBytes, inputBufCap := cap }
    match assembleLoop s1.input.chunks.length s.remainingLength acc s1 with
    | .error e => .error e
    | .ok (buf, s2) => .ok (buf, { s2 with inputBufData := buf })

/-- Result of one readOrSkip call that did not hit end of stream: the
reported `*size`, plus the bytes of the returned window (empty for the
skip-elision path, where nothing is materialized). -/
structure ReadOut where
  size : Int
  view : List Nat
deriving DecidableEq, Repr

/-- Common tail of PagedInputStream::readOrSkip (lines 204-212): non-raw
paths consume the whole block and await the next header; then the replay
window is cleared, `bytesReturned_` advances by the reported size and
`lastWindowSize_` records it. -/
def finishRead (original : Bool) (size : Int) (view : List Nat) (s : PagedStream) :
    Option ReadOut × PagedStream :=
  let s := if original then s else { s with remainingLength := 0, state := .HEADER }
  (some ⟨size, view⟩,
    { s with
      outputBufferLength := 0,
      bytesReturned := s.bytesReturned + size,
      lastWindowSize := size })

/-- PagedInputStream::readOrSkip (lines 113-213). `wantData` models
`data != nullptr`. -/
def readOrSkip (caps : Caps) (wantData : Bool) (s : PagedStream) :
    Except Err (Option ReadOut × PagedStream) :=
  if wantData = true ∧ s.pendingSkip ≠ 0 then
    .error .pendingSkipNonZero
  else if s.outputBufferLength ≠ 0 then
    -- the user pushed back: return them the partial buffer (lines 118-129)
    .ok (some ⟨(s.outputBufferLength : Int), viewAt s s.outLoc s.outputBufferLength⟩,
      { s with
        outLoc := s.outLoc.advance (s.outputBufferLength : Int),
        bytesReturned := s.bytesReturned + (s.outputBufferLength : Int),
        outputBufferLength := 0 })
  else
    -- release previous decryption buffer (line 132)
    let s := { s with decryptionBuffer := none }
    let afterHeader :=
      if s.state = .HEADER ∨ s.remainingLength = 0 then readHeader s else .ok s
    match afterHeader with
    | .error e => .error e
    | .ok s =>
      if s.state = .END then
        .ok (none, s)
      else
        let afterFill :=
          if s.inputPos = s.curChunk.length then readBuffer true s else .ok s
        match afterFill with
        | .error e => .error e
        | .ok s =>
          let availSize := min (s.curChunk.length - s.inputPos) s.remainingLength
          let original := caps.decrypter.isNone ∧ s.state = .ORIGINAL
          if original then
            -- raw zero-copy fast path (lines 153-160); the decryption and
            -- decompression stages are vacuous here (no decrypter, state
            -- is ORIGINAL), so flow goes straight to the common tail
            let view := (s.curChunk.drop s.inputPos).take availSize
            .ok (finishRead true (availSize : Int) view
              { s with
                outLoc := .input ((s.inputPos : Int) + (availSize : Int)),
                inputPos := s.inputPos + availSize,
                remainingLength := s.remainingLength - availSize })
          else
            match ensureInput availSize s with
            | .error e => .error e
            | .ok (blockBytes, s) =>
              -- perform decryption (lines 166-176)
              let (inp, size1, view1, s) :=
                match caps.decrypter with
                | some decrypt =>
                  let de := decrypt blockBytes
                  (de, (de.length : Int), de,
                    { s with
                      decryptionBuffer := some de,
                      remainingLength := de.length,
                      outLoc := .decryptBuf (de.length : Int),
                      decryptCalls := s.decryptCalls + 1 })
                | none => (blockBytes, 0, [], s)
              -- perform decompression (lines 179-202)
              if s.state = .START then
                match caps.decompressor with
                | none => .error .invalidStreamState
                | some dcp =>
                  let lenPair := dcp.getDecompressedLength inp
                  if wantData = false ∧ lenPair.2 = true ∧ (lenPair.1 : Int) ≤ s.pendingSkip then
                    .ok (finishRead false (lenPair.1 : Int) []
                      { s with outLoc := .none, decryptionBuffer := none })
                  else
                    let s := prepareOutputBuffer lenPair.1 s
                    let out := dcp.decompress inp
                    let b := s.outputBuffer.getD ⟨lenPair.1, []⟩
                    .ok (finishRead false (out.length : Int) out
                      { s with
                        outputBuffer := some { b with data := out },
                        outputBufferLength := out.length,
                        outLoc := .output (out.length : Int),
                        decompressCalls := s.decompressCalls + 1,
                        decryptionBuffer := none })
              else
                .ok (finishRead false size1 view1 s)

/-- Range checks of PagedInputStream::BackUp in the ORIGINAL state
(lines 229-238): `outputBufferPtr_` must lie inside the current chunk view
and the rewind must not exceed the bytes consumed from it. -/
def backUpRangeOk (count : Int) (s : PagedStream) : Bool :=
  match s.outLoc with
  | .input p =>
    decide (0 ≤ p) && decide (p ≤ (s.curChunk.length : Int))
      && decide (count ≤ (s.inputPos : Int))
  | _ => false

/-- Tail of PagedInputStream::BackUp after the pendingSkip absorption
(lines 225-241). -/
def backUpTail (count : Int) (s : PagedStream) : Except Err PagedStream :=
  if s.outLoc = .none then .error .backupWithoutNext
  else if s.state = .ORIGINAL ∧ ¬ backUpRangeOk count s then .error .backupOutOfRange
  else
    .ok { s with
      outLoc := s.outLoc.advance (-count),
      outputBufferLength := s.outputBufferLength + count.toNat,
      bytesReturned := s.bytesReturned - count }

/-- PagedInputStream::BackUp (lines 215-242). The source's local
`len = min(count, pendingSkip_)` is inlined; note that the early return
on a fully absorbed count sits inside the `pendingSkip_ > 0` branch. -/
def BackUp (count : Int) (s : PagedStream) : Except Err PagedStream :=
  if count < 0 then .error .negativeCount
  else if s.pendingSkip > 0 then
    if count - min count s.pendingSkip = 0 then
      .ok { s with pendingSkip := s.pendingSkip - min count s.pendingSkip }
    else
      backUpTail (count - min count s.pendingSkip)
        { s with pendingSkip := s.pendingSkip - min count s.pendingSkip }
  else backUpTail count s

/-- PagedInputStream::skipAllPending (lines 244-259), with model fuel
bounding the loop. -/
def skipAllPending (fuel : Nat) (caps : Caps) (s : PagedStream) :
    Except Err (Bool × PagedStream) :=
  match fuel with
  | 0 => if s.pendingSkip > 0 then .error .fuelExhausted else .ok (true, s)
  | f + 1 =>
    if s.pendingSkip > 0 then
      match readOrSkip caps false s with
      | .error e => .error e
      | .ok (Option.none, s') => .ok (false, s')
      | .ok (some out, s') =>
        if out.size > s'.pendingSkip then
          match BackUp (out.size - s'.pendingSkip) { s' with pendingSkip := 0 } with
          | .error e => .error e
          | .ok s'' => skipAllPending f caps s''
        else
          skipAllPending f caps { s' with pendingSkip := s'.pendingSkip - out.size }
    else
      .ok (true, s)

/-- PagedInputStream::Next (lines 106-110): drain pending skips (the
return value is ignored, as in the source), then do a real read. -/
def Next (fuel : Nat) (caps : Caps) (s : PagedStream) :
    Except Err (Option ReadOut × PagedStream) :=
  match skipAllPending fuel caps s with
  | .error e => .error e
  | .ok (_, s') => readOrSkip caps true s'

/-- PagedInputStream::skip (lines 261-266): accumulate into pendingSkip_
and report success. -/
def skip (count : Int) (s : PagedStream) : Except Err (Bool × PagedStream) :=
  if count < 0 then .error .negativeCount
  else .ok (true, { s with pendingSkip := s.pendingSkip + count })

/-- PagedInputStream::clearDecompressionState (lines 268-274). -/
def clearDecompressionState (s : PagedStream) : PagedStream :=
  { s with
    state := .HEADER,
    outputBufferLength := 0,
    remainingLength := 0,
    curChunk := [],
    inputPos := 0 }

/-- The local `alreadyRead` of PagedInputStream::seekToPosition
(lines 285-286): output bytes produced or promised since the last header
was parsed. -/
def alreadyRead (s : PagedStream) : Int :=
  s.bytesReturned - s.bytesReturnedAtLastHeaderOffset + s.pendingSkip

/-- The `outsideOriginalWindow` lambda of PagedInputStream::seekToPosition
(lines 292-296). -/
def outsideOriginalWindow (s : PagedStream) (compressedOffset uncompressedOffset : Int) : Prop :=
  s.state = .ORIGINAL ∧ compressedOffset = s.lastHeaderOffset ∧
    uncompressedOffset < alreadyRead s ∧
    s.lastWindowSize < alreadyRead s - uncompressedOffset

instance (s : PagedStream) (co uo : Int) : Decidable (outsideOriginalWindow s co uo) := by
  unfold outsideOriginalWindow
  infer_instance

/-- PagedInputStream::seekToPosition (lines 276-311), with the position
provider's two values passed directly. -/
def seekToPosition (compressedOffset uncompressedOffset : Int) (s : PagedStream) :
    Except Err PagedStream :=
  if compressedOffset ≠ s.lastHeaderOffset ∨
      outsideOriginalWindow s compressedOffset uncompressedOffset then
    .ok { clearDecompressionState
            { s with input := s.input.seekToPosition compressedOffset } with
          pendingSkip := uncompressedOffset }
  else
    if uncompressedOffset < alreadyRead s then
      BackUp (alreadyRead s - uncompressedOffset) s
    else
      .ok { s with pendingSkip := s.pendingSkip + (uncompressedOffset - alreadyRead s) }

/-- Modelled from the spec: the freshly constructed stream (the
constructor and member initializers live in PagedInputStream.h, which is
not among the sources). Initial state is AwaitingHeader, all counters are
zero, all buffers empty, `outputBufferPtr_` null. -/
def initialStream (chunks : List (List Nat)) : PagedStream :=
  { input := { chunks := chunks, byteCount := 0, seeks := [] }
    curChunk := []
    inputPos := 0
    state := .HEADER
    remainingLength := 0
    pendingSkip := 0
    bytesReturned := 0
    lastHeaderOffset := 0
    bytesReturnedAtLastHeaderOffset := 0
    lastWindowSize := 0
    outLoc := .none
    outputBufferLength := 0
    outputBuffer := none
    inputBufData := []
    inputBufCap := 0
    decryptionBuffer := none
    headerReads := 0
    decompressCalls := 0
    decryptCalls := 0 }

/-- Modelled from the spec: the writer-side 3-byte header encoder ("the
3-byte block header — bit 0 = raw/compressed flag, bits 1-23 = block byte
length"; the writer is not among the sources). Little-endian byte order. -/
def encodeHeader (isOriginal : Bool) (length : Nat) : Nat × Nat × Nat :=
  let h := (length <<< 1) ||| (if isOriginal then 1 else 0)
  (h % 256, h / 256 % 256, h / 65536 % 256)

/-- The encoded header as a byte list. -/
def encodeHeaderBytes (isOriginal : Bool) (length : Nat) : List Nat :=
  [(encodeHeader isOriginal length).1,
   (encodeHeader isOriginal length).2.1,
   (encodeHeader isOriginal length).2.2]

/-- Concatenation of the views of all reads until end of stream (used to
state the skip/read equivalence). -/
def nextBytes (fuel sfuel : Nat) (caps : Caps) (s : PagedStream) : Except Err (List Nat) :=
  match fuel with
  | 0 => .error .fuelExhausted
  | f + 1 =>
    match Next sfuel caps s with
    | .error e => .error e
    | .ok (Option.none, _) => .ok []
    | .ok (some out, s') =>
      match nextBytes f sfuel caps s' with
      | .error e => .error e
      | .ok rest => .ok (out.view ++ rest)

/-- Capabilities with neither decrypter nor decompressor configured. -/
def capsNone : Caps := ⟨none, none⟩

end PagedInputStream

namespace PagedInputStream

theorem parseHeaderVal_eq (b0 b1 b2 : Nat) (h0 : b0 < 256) (h1 : b1 < 256) :
    parseHeaderVal b0 b1 b2 = b0 + 256 * b1 + 65536 * b2 := by
  have e1 : b1 <<< 8 = 2 ^ 8 * b1 := by rw [Nat.shiftLeft_eq]; ring
  have e2 : b2 <<< 16 = 2 ^ 16 * b2 := by rw [Nat.shiftLeft_eq]; ring
  have hb : 2 ^ 8 * b1 + b0 < 2 ^ 16 := by omega
  calc parseHeaderVal b0 b1 b2
      = (b0 ||| b1 <<< 8) ||| b2 <<< 16 := rfl
    _ = (2 ^ 8 * b1 + b0) ||| 2 ^ 16 * b2 := by
        rw [e1, e2, Nat.or_comm b0, ← Nat.mul_add_lt_is_or h0]
    _ = 2 ^ 16 * b2 + (2 ^ 8 * b1 + b0) := by
        rw [Nat.or_comm, ← Nat.mul_add_lt_is_or hb]
    _ = b0 + 256 * b1 + 65536 * b2 := by ring

theorem encodeHeader_decode (isOriginal : Bool) (length : Nat) (hlen : length < 2 ^ 23) :
    decodeHeader (encodeHeader isOriginal length).1
        (encodeHeader isOriginal length).2.1 (encodeHeader isOriginal length).2.2
      = (if isOriginal then State.ORIGINAL else State.START, length) := by
  have hflag : (if isOriginal then 1 else 0) < 2 ^ 1 := by cases isOriginal <;> simp
  have hval : (length <<< 1) ||| (if isOriginal then 1 else 0)
      = 2 * length + (if isOriginal then 1 else 0) := by
    rw [Nat.shiftLeft_eq, show length * 2 ^ 1 = 2 ^ 1 * length from by ring,
      ← Nat.mul_add_lt_is_or hflag]
  have hfle : (if isOriginal then 1 else 0) ≤ 1 := by cases isOriginal <;> simp
  simp only [encodeHeader, decodeHeader]
  simp only [hval]
  set f := (if isOriginal then (1 : Nat) else 0) with hf
  set H := 2 * length + f with hH
  have hH24 : H < 2 ^ 24 := by omega
  have hp : parseHeaderVal (H % 256) (H / 256 % 256) (H / 65536 % 256) = H := by
    rw [parseHeaderVal_eq _ _ _ (by omega) (by omega)]
    omega
  simp only [hp]
  have hand : H &&& 1 = H % 2 := Nat.and_one_is_mod H
  have hshift : H >>> 1 = H / 2 := by
    rw [Nat.shiftRight_eq_div_pow]
  have hdiv : H / 2 = length := by omega
  have hmod : H % 2 = f := by omega
  rw [hand, hshift, hdiv, hmod]
  cases isOriginal <;> simp [hf]

/-- C2: header decoding inverts header encoding. Parsing three header
bytes b0, b1, b2 forms h = b0 | b1<<8 | b2<<16, selects ORIGINAL (Raw)
exactly when bit 0 of h is set and START (Compressed) when it is clear,
and takes h >> 1 as the block length (this is `decodeHeader`, the decoding
performed by `readHeader`); hence for every (isOriginal, length) with
length < 2^23, encoding a 3-byte header and re-parsing it yields the
original pair. -/
theorem C2_header_roundtrip (isOriginal : Bool) (length : Nat) (hlen : length < 2 ^ 23) :
    (∀ b0 b1 b2 : Nat,
      decodeHeader b0 b1 b2 =
        (if parseHeaderVal b0 b1 b2 &&& 1 = 1 then State.ORIGINAL else State.START,
          parseHeaderVal b0 b1 b2 >>> 1)) ∧
    decodeHeader (encodeHeader isOriginal length).1
        (encodeHeader isOriginal length).2.1 (encodeHeader isOriginal length).2.2
      = (if isOriginal then State.ORIGINAL else State.START, length) := by
  refine ⟨fun b0 b1 b2 => rfl, encodeHeader_decode isOriginal length hlen⟩

theorem C2_header_roundtrip_witness :
    (1000 : Nat) < 2 ^ 23 ∧
    decodeHeader (encodeHeader true 1000).1
        (encodeHeader true 1000).2.1 (encodeHeader true 1000).2.2
      = (State.ORIGINAL, 1000) :=
  ⟨by norm_num, (C2_header_roundtrip true 1000 (by norm_num)).2⟩

/-- C8: skip(n) with n >= 0 only accumulates n into pendingSkip — the
result is the same stream with only the pendingSkip field updated (so no
header parse, no source access, no buffer change, bytesReturned
untouched) — and it returns true. -/
theorem C8_skip_frame (s : PagedStream) (n : Int) (h0 : 0 ≤ n) :
    skip n s = .ok (true, { s with pendingSkip := s.pendingSkip + n }) := by
  unfold skip
  rw [if_neg (by omega)]

theorem C8_skip_frame_witness :
    skip 4 (initialStream [[1, 2]]) =
      .ok (true, { initialStream [[1, 2]] with pendingSkip := 4 }) :=
  C8_skip_frame (initialStream [[1, 2]]) 4 (by norm_num)

/-- C10: BackUp(n) with n >= 0, pendingSkip = 0 and no prior read (null
outputBufferPtr_) always fails, even for n = 0; and without a prior read
BackUp succeeds exactly when a positive pendingSkip absorbs all of n. -/
theorem C10_backup_without_next (s : PagedStream) (n : Int) (h0 : 0 ≤ n)
    (hloc : s.outLoc = .none) :
    (s.pendingSkip = 0 → BackUp n s = .error .backupWithoutNext) ∧
    ((∃ s', BackUp n s = .ok s') ↔ 0 < s.pendingSkip ∧ n ≤ s.pendingSkip) := by
  constructor
  · intro hps
    unfold BackUp backUpTail
    rw [if_neg (by omega), if_neg (by omega), if_pos hloc]
  · unfold BackUp backUpTail
    rw [if_neg (by omega)]
    by_cases hps : s.pendingSkip > 0
    · rw [if_pos hps]
      by_cases hc : n - min n s.pendingSkip = 0
      · rw [if_pos hc]
        exact ⟨fun _ => ⟨hps, by omega⟩, fun _ => ⟨_, rfl⟩⟩
      · rw [if_neg hc, if_pos hloc]
        constructor
        · rintro ⟨s', h⟩
          exact Except.noConfusion h
        · rintro ⟨h1, h2⟩
          exact absurd (by omega : n - min n s.pendingSkip = 0) hc
    · rw [if_neg hps, if_pos hloc]
      constructor
      · rintro ⟨s', h⟩
        exact Except.noConfusion h
      · rintro ⟨h1, _⟩
        exact absurd h1 (by omega)

theorem C10_backup_without_next_witness :
    BackUp 0 (initialStream [[1]]) = .error .backupWithoutNext :=
  (C10_backup_without_next (initialStream [[1]]) 0 (by norm_num) rfl).1 rfl

end PagedInputStream

namespace PagedInputStream

/-- Concrete stream for the C5 counterexample: a pending skip of 3 and a
previous read (non-null outputBufferPtr_), 10 bytes returned so far. -/
def c5ex : PagedStream :=
  { initialStream [] with pendingSkip := 3, bytesReturned := 10, outLoc := .output 5 }

/-- C5 is false as stated: BackUp(5) on a stream with pendingSkip = 3
reduces pendingSkip by min(5, 3) = 3 but then decrements bytesReturned
only by the remainder 2 (10 becomes 8), not by n = 5 (which would give 5),
and likewise enlarges the replay window only by 2. -/
theorem C5_counterexample :
    (BackUp 5 c5ex).map PagedStream.bytesReturned = .ok 8 ∧
    (BackUp 5 c5ex).map PagedStream.outputBufferLength = .ok 2 ∧
    c5ex.bytesReturned - 5 = 5 ∧ (8 : Int) ≠ 5 := by
  refine ⟨rfl, rfl, rfl, by decide⟩

/-- C5 (amended): BackUp(n) first reduces PendingSkip by m = min(n,
PendingSkip); when PendingSkip was positive and absorbed all of n the call
returns with no further effect; in every case in which the call succeeds,
bytesReturned decreases by the remainder n - m and the ReplayWindow
(outputBufferLength_) grows by n - m. -/
theorem C5_backup_amended (s : PagedStream) (n : Int) (h0 : 0 ≤ n)
    (hps : 0 ≤ s.pendingSkip) :
    (0 < s.pendingSkip ∧ n ≤ s.pendingSkip →
      BackUp n s = .ok { s with pendingSkip := s.pendingSkip - n }) ∧
    (∀ s', BackUp n s = .ok s' →
      s'.pendingSkip = s.pendingSkip - min n s.pendingSkip ∧
      s'.bytesReturned = s.bytesReturned - (n - min n s.pendingSkip) ∧
      (s'.outputBufferLength : Int) =
        (s.outputBufferLength : Int) + (n - min n s.pendingSkip)) := by
  constructor
  · rintro ⟨h1, h2⟩
    unfold BackUp
    rw [if_neg (by omega), if_pos (by omega), if_pos (by omega)]
    have hm : min n s.pendingSkip = n := by omega
    rw [hm]
  · intro s' h
    unfold BackUp at h
    rw [if_neg (by omega)] at h
    by_cases hp : s.pendingSkip > 0
    · rw [if_pos hp] at h
      by_cases hc : n - min n s.pendingSkip = 0
      · rw [if_pos hc] at h
        injection h with h
        subst h
        refine ⟨rfl, ?_, ?_⟩ <;> simp <;> omega
      · rw [if_neg hc] at h
        unfold backUpTail at h
        split at h
        · exact Except.noConfusion h
        · split at h
          · exact Except.noConfusion h
          · injection h with h
            subst h
            refine ⟨rfl, by simp, by simp⟩
    · rw [if_neg hp] at h
      have hm : min n s.pendingSkip = s.pendingSkip := by omega
      have hz : s.pendingSkip = 0 := by omega
      unfold backUpTail at h
      split at h
      · exact Except.noConfusion h
      · split at h
        · exact Except.noConfusion h
        · injection h with h
          subst h
          refine ⟨?_, ?_, ?_⟩ <;> simp [hm, hz] <;> omega

theorem C5_backup_amended_witness :
    BackUp 2 { initialStream [] with pendingSkip := 3 } =
      .ok { initialStream [] with pendingSkip := 1 } :=
  (C5_backup_amended { initialStream [] with pendingSkip := 3 } 2
    (by norm_num) (by norm_num)).1 ⟨by norm_num, by norm_num⟩

/-- Helper: a successful BackUp never touches the underlying input stream. -/
theorem backUp_input_eq (n : Int) (s s' : PagedStream) (h : BackUp n s = .ok s') :
    s'.input = s.input := by
  unfold BackUp at h
  split at h
  · exact Except.noConfusion h
  · split at h
    · split at h
      · injection h with h
        subst h
        rfl
      · unfold backUpTail at h
        split at h
        · exact Except.noConfusion h
        · split at h
          · exact Except.noConfusion h
          · injection h with h
            subst h
            rfl
    · unfold backUpTail at h
      split at h
      · exact Except.noConfusion h
      · split at h
        · exact Except.noConfusion h
        · injection h with h
          subst h
          rfl

/-- C1: seekToPosition(sourceOffset, decodedOffset) performs the full
reseek — reseek the source to sourceOffset (observable in the ghost seek
log), clear buffered decode state, state := AwaitingHeader, PendingSkip :=
decodedOffset — exactly when sourceOffset differs from the last parsed
header's offset or outsideOriginalWindow holds; in every other case it
calls BackUp(alreadyRead - decodedOffset) when decodedOffset < alreadyRead
and otherwise adds decodedOffset - alreadyRead to PendingSkip. -/
theorem C1_seek_cases (s : PagedStream) (co uo : Int) :
    ((co ≠ s.lastHeaderOffset ∨ outsideOriginalWindow s co uo) →
      seekToPosition co uo s =
        .ok { clearDecompressionState
                { s with input := s.input.seekToPosition co } with
              pendingSkip := uo }) ∧
    (¬ (co ≠ s.lastHeaderOffset ∨ outsideOriginalWindow s co uo) →
      (uo < alreadyRead s →
        seekToPosition co uo s = BackUp (alreadyRead s - uo) s) ∧
      (alreadyRead s ≤ uo →
        seekToPosition co uo s =
          .ok { s with pendingSkip := s.pendingSkip + (uo - alreadyRead s) })) ∧
    (∀ r, seekToPosition co uo s = .ok r →
      (r.input.seeks = s.input.seeks ++ [co] ↔
        (co ≠ s.lastHeaderOffset ∨ outsideOriginalWindow s co uo))) := by
  refine ⟨?_, ?_, ?_⟩
  · intro hc
    unfold seekToPosition
    rw [if_pos hc]
  · intro hc
    constructor
    · intro hlt
      unfold seekToPosition
      rw [if_neg hc, if_pos hlt]
    · intro hge
      unfold seekToPosition
      rw [if_neg hc, if_neg (by omega)]
  · intro r hr
    unfold seekToPosition at hr
    by_cases hc : co ≠ s.lastHeaderOffset ∨ outsideOriginalWindow s co uo
    · rw [if_pos hc] at hr
      injection hr with hr
      subst hr
      simp only [clearDecompressionState, InputStream.seekToPosition]
      exact ⟨fun _ => hc, fun _ => trivial⟩
    · rw [if_neg hc] at hr
      have hinp : r.input = s.input := by
        split at hr
        · exact backUp_input_eq _ _ _ hr
        · injection hr with hr
          subst hr
          rfl
      rw [hinp]
      constructor
      · intro hseeks
        have := congrArg List.length hseeks
        simp at this
      · intro h
        exact absurd h hc

theorem C1_seek_cases_witness :
    seekToPosition 5 7 (initialStream [[1]]) =
      .ok { clearDecompressionState
              { initialStream [[1]] with
                input := (initialStream [[1]]).input.seekToPosition 5 } with
            pendingSkip := 7 } :=
  (C1_seek_cases (initialStream [[1]]) 5 7).1 (Or.inl (by decide))

end PagedInputStream

namespace PagedInputStream

/-- C3: if the underlying source is exhausted when readHeader attempts its
first byte, the stream moves to END with remaining length zero and no
error; if it is exhausted at the second or the third header byte, the
operation fails with readPastEof instead of transitioning to END. -/
theorem C3_header_eof (s : PagedStream) (hch : s.input.chunks = []) :
    (s.inputPos = s.curChunk.length →
      readHeader s = .ok { s with
        state := .END, curChunk := [], inputPos := 0,
        remainingLength := 0,
        lastHeaderOffset := (s.input.byteCount : Int) - 1,
        bytesReturnedAtLastHeaderOffset := s.bytesReturned,
        headerReads := s.headerReads + 1 }) ∧
    (s.state ≠ .END → s.inputPos + 1 = s.curChunk.length →
      readHeader s = .error .readPastEof) ∧
    (s.state ≠ .END → s.inputPos + 2 = s.curChunk.length →
      readHeader s = .error .readPastEof) := by
  refine ⟨?_, ?_, ?_⟩
  · intro hpos
    simp [readHeader, readByte, readBuffer, hch, hpos]
  · intro hst hpos
    have h1 : ¬ s.inputPos = s.curChunk.length := by omega
    simp [readHeader, readByte, readBuffer, hch, h1, hst, hpos]
  · intro hst hpos
    have h1 : ¬ s.inputPos = s.curChunk.length := by omega
    have h2 : ¬ s.inputPos + 1 = s.curChunk.length := by omega
    simp [readHeader, readByte, readBuffer, hch, h1, h2, hst, hpos]

theorem C3_header_eof_witness :
    readHeader { initialStream [] with curChunk := [17], state := .HEADER } =
      .error .readPastEof :=
  (C3_header_eof { initialStream [] with curChunk := [17], state := .HEADER }
    rfl).2.1 (by decide) rfl

end PagedInputStream

namespace PagedInputStream

/-- C6: a read first delivers a non-empty ReplayWindow verbatim — such a
read parses no header and takes no bytes from the underlying source (the
input stream, chunk view and header fields of the result are untouched) —
and Next always runs skipAllPending (which drains PendingSkip) before its
read-or-skip path. -/
theorem C6_replay_first (caps : Caps) (wantData : Bool) (s : PagedStream)
    (hw : wantData = true → s.pendingSkip = 0)
    (hr : s.outputBufferLength ≠ 0) :
    readOrSkip caps wantData s =
      .ok (some ⟨(s.outputBufferLength : Int), viewAt s s.outLoc s.outputBufferLength⟩,
        { s with
          outLoc := s.outLoc.advance (s.outputBufferLength : Int),
          bytesReturned := s.bytesReturned + (s.outputBufferLength : Int),
          outputBufferLength := 0 }) ∧
    (∀ fuel, Next fuel caps s =
      match skipAllPending fuel caps s with
      | .error e => .error e
      | .ok (_, s') => readOrSkip caps true s') := by
  constructor
  · unfold readOrSkip
    rw [if_neg (fun hand => hand.2 (hw hand.1)), if_pos hr]
  · intro fuel
    rfl

/-- Concrete stream for the C6 witness: a two-byte replay window inside a
three-byte chunk. -/
def c6ex : PagedStream :=
  { initialStream [] with
    curChunk := [5, 6, 7]
    outLoc := .input 1
    outputBufferLength := 2 }

theorem C6_replay_first_witness :
    readOrSkip capsNone true c6ex =
      .ok (some ⟨2, [6, 7]⟩,
        { c6ex with
          outLoc := .input 3
          outputBufferLength := 0
          bytesReturned := 2 }) := by
  have h := (C6_replay_first capsNone true c6ex (fun _ => rfl) (by decide)).1
  rw [h]
  rfl


end PagedInputStream

namespace PagedInputStream

/-- Bytes of the current block when it lies contiguously in the current
chunk (what ensureInput returns on its zero-copy path). -/
def blockBytesOf (s : PagedStream) : List Nat :=
  (s.curChunk.drop s.inputPos).take s.remainingLength

/-- Capacity of the output buffer after prepareOutputBuffer has grown it
for a block of decompressed length `dlen`. -/
def grownCap (dlen : Nat) (buf : Option OutBuf) : Nat :=
  match buf with
  | Option.none => dlen
  | some b => max b.cap dlen

/-- C7: on a skip-mode read of a Compressed block, if the decompressor
reports the length as exact and it does not exceed the pending skip,
decompress is never invoked (the ghost decompressCalls counter is
unchanged in the result record) and the read reports that length; in
every other case the output buffer is grown to at least the decompressed
length, decompress fills it, and the produced length is the returned
size. The hypotheses place the stream inside a Compressed block that is
contiguous in the current chunk, with no decrypter configured. -/
theorem C7_skip_elision (caps : Caps) (dcp : Decompressor) (wantData : Bool)
    (s : PagedStream)
    (hdec : caps.decrypter = none) (hdcp : caps.decompressor = some dcp)
    (hw : wantData = true → s.pendingSkip = 0)
    (hob : s.outputBufferLength = 0)
    (hst : s.state = .START)
    (hrem : s.remainingLength ≠ 0)
    (hcontig : s.inputPos + s.remainingLength ≤ s.curChunk.length) :
    (wantData = false ∧ (dcp.getDecompressedLength (blockBytesOf s)).2 = true ∧
        ((dcp.getDecompressedLength (blockBytesOf s)).1 : Int) ≤ s.pendingSkip →
      readOrSkip caps wantData s =
        .ok (some ⟨((dcp.getDecompressedLength (blockBytesOf s)).1 : Int), []⟩,
          { s with
            decryptionBuffer := none
            inputPos := s.inputPos + s.remainingLength
            outLoc := .none
            remainingLength := 0
            state := .HEADER
            outputBufferLength := 0
            bytesReturned := s.bytesReturned +
              ((dcp.getDecompressedLength (blockBytesOf s)).1 : Int)
            lastWindowSize := ((dcp.getDecompressedLength (blockBytesOf s)).1 : Int) })) ∧
    (¬ (wantData = false ∧ (dcp.getDecompressedLength (blockBytesOf s)).2 = true ∧
        ((dcp.getDecompressedLength (blockBytesOf s)).1 : Int) ≤ s.pendingSkip) →
      readOrSkip caps wantData s =
        .ok (some ⟨((dcp.decompress (blockBytesOf s)).length : Int),
              dcp.decompress (blockBytesOf s)⟩,
          { s with
            decryptionBuffer := none
            inputPos := s.inputPos + s.remainingLength
            outputBuffer := some
              ⟨grownCap (dcp.getDecompressedLength (blockBytesOf s)).1 s.outputBuffer,
               dcp.decompress (blockBytesOf s)⟩
            outLoc := .output ((dcp.decompress (blockBytesOf s)).length : Int)
            decompressCalls := s.decompressCalls + 1
            remainingLength := 0
            state := .HEADER
            outputBufferLength := 0
            bytesReturned := s.bytesReturned +
              ((dcp.decompress (blockBytesOf s)).length : Int)
            lastWindowSize := ((dcp.decompress (blockBytesOf s)).length : Int) }) ∧
      (dcp.getDecompressedLength (blockBytesOf s)).1 ≤
        grownCap (dcp.getDecompressedLength (blockBytesOf s)).1 s.outputBuffer) := by
  have hpos : ¬ s.inputPos = s.curChunk.length := by omega
  have hnohdr : ¬ (s.state = State.HEADER ∨ s.remainingLength = 0) := by
    rw [hst]; simp [hrem]
  have havail : min (s.curChunk.length - s.inputPos) s.remainingLength
      = s.remainingLength := by omega
  constructor
  · rintro ⟨hwd, hex, hle⟩
    subst hwd
    simp only [blockBytesOf] at hex hle ⊢
    simp [readOrSkip, ensureInput, finishRead, hdec, hdcp, hob, hst, hrem, hpos,
      havail, hex, hle]
  · intro hnel
    have h1 : ¬ (wantData = true ∧ s.pendingSkip ≠ 0) := fun hand => hand.2 (hw hand.1)
    simp only [blockBytesOf] at hnel ⊢
    refine ⟨?_, ?_⟩
    · cases hb : s.outputBuffer with
      | none =>
        simp [readOrSkip, ensureInput, finishRead, prepareOutputBuffer, grownCap,
          hdec, hdcp, hob, hst, hrem, hpos, havail, h1, hnel, hb]
      | some b =>
        by_cases hcap : (dcp.getDecompressedLength
            ((s.curChunk.drop s.inputPos).take s.remainingLength)).1 > b.cap
        · have hg : max b.cap (dcp.getDecompressedLength
              ((s.curChunk.drop s.inputPos).take s.remainingLength)).1 =
              (dcp.getDecompressedLength
                ((s.curChunk.drop s.inputPos).take s.remainingLength)).1 := by omega
          simp [readOrSkip, ensureInput, finishRead, prepareOutputBuffer, grownCap,
            hdec, hdcp, hob, hst, hrem, hpos, havail, h1, hnel, hb, hcap, hg]
        · have hg : max b.cap (dcp.getDecompressedLength
              ((s.curChunk.drop s.inputPos).take s.remainingLength)).1 = b.cap := by omega
          simp [readOrSkip, ensureInput, finishRead, prepareOutputBuffer, grownCap,
            hdec, hdcp, hob, hst, hrem, hpos, havail, h1, hnel, hb, hcap, hg]
    · cases hb : s.outputBuffer with
      | none => simp [grownCap]
      | some b => simp [grownCap, le_max_right]

end PagedInputStream

namespace PagedInputStream

/-- Concrete decompressor for the C7 witness: reports exact length and
duplicates its input when actually invoked. -/
def c7dcp : Decompressor := ⟨fun l => (l.length, true), fun l => l ++ l⟩

/-- Capabilities for the C7 witness. -/
def c7caps : Caps := ⟨none, some c7dcp⟩

/-- Concrete stream for the C7 witness: inside a 3-byte compressed block
with 5 bytes of pending skip. -/
def c7ex : PagedStream :=
  { initialStream [] with
    curChunk := [3, 4, 5]
    state := .START
    remainingLength := 3
    pendingSkip := 5 }

theorem C7_skip_elision_witness :
    readOrSkip c7caps false c7ex =
      .ok (some ⟨3, []⟩,
        { c7ex with
          decryptionBuffer := none
          inputPos := 3
          outLoc := .none
          remainingLength := 0
          state := .HEADER
          outputBufferLength := 0
          bytesReturned := 3
          lastWindowSize := 3 }) := by
  have h := (C7_skip_elision c7caps c7dcp false c7ex rfl rfl (by simp) rfl rfl
    (by decide) (by decide)).1 ⟨rfl, rfl, by decide⟩
  rw [h]
  rfl

/-- C9: when a decrypter is configured the raw zero-copy fast path is
never taken: an ORIGINAL (Raw) block is gathered contiguously and passed
through decrypt (the ghost decryptCalls counter increments and the
returned view is the decrypted bytes), it is never decompressed
(decompressCalls is unchanged in the result record), and after the read
the block's remaining length is zero and the state is AwaitingHeader. -/
theorem C9_decrypter_raw (caps : Caps) (dec : List Nat → List Nat) (wantData : Bool)
    (s : PagedStream)
    (hdec : caps.decrypter = some dec)
    (hw : wantData = true → s.pendingSkip = 0)
    (hob : s.outputBufferLength = 0)
    (hst : s.state = .ORIGINAL)
    (hrem : s.remainingLength ≠ 0)
    (hcontig : s.inputPos + s.remainingLength ≤ s.curChunk.length) :
    readOrSkip caps wantData s =
      .ok (some ⟨((dec (blockBytesOf s)).length : Int), dec (blockBytesOf s)⟩,
        { s with
          decryptionBuffer := some (dec (blockBytesOf s))
          inputPos := s.inputPos + s.remainingLength
          outLoc := .decryptBuf ((dec (blockBytesOf s)).length : Int)
          decryptCalls := s.decryptCalls + 1
          remainingLength := 0
          state := .HEADER
          outputBufferLength := 0
          bytesReturned := s.bytesReturned + ((dec (blockBytesOf s)).length : Int)
          lastWindowSize := ((dec (blockBytesOf s)).length : Int) }) := by
  have hpos : ¬ s.inputPos = s.curChunk.length := by omega
  have hnohdr : ¬ (s.state = State.HEADER ∨ s.remainingLength = 0) := by
    rw [hst]; simp [hrem]
  have havail : min (s.curChunk.length - s.inputPos) s.remainingLength
      = s.remainingLength := by omega
  have h1 : ¬ (wantData = true ∧ s.pendingSkip ≠ 0) := fun hand => hand.2 (hw hand.1)
  simp only [blockBytesOf]
  simp [readOrSkip, ensureInput, finishRead, hdec, hob, hst, hrem, hpos, havail, h1]

/-- Single-byte-shift decrypter and capabilities for the C9 witness. -/
def c9caps : Caps := ⟨some (fun l => l.map (· + 1)), none⟩

/-- Concrete stream for the C9 witness: inside a 3-byte Raw block with a
decrypter configured. -/
def c9ex : PagedStream :=
  { initialStream [] with
    curChunk := [3, 4, 5]
    state := .ORIGINAL
    remainingLength := 3 }

theorem C9_decrypter_raw_witness :
    readOrSkip c9caps true c9ex =
      .ok (some ⟨3, [4, 5, 6]⟩,
        { c9ex with
          decryptionBuffer := some [4, 5, 6]
          inputPos := 3
          outLoc := .decryptBuf 3
          decryptCalls := 1
          remainingLength := 0
          state := .HEADER
          outputBufferLength := 0
          bytesReturned := 3
          lastWindowSize := 3 }) := by
  have h := C9_decrypter_raw c9caps (fun l => l.map (· + 1)) true c9ex rfl
    (fun _ => rfl) rfl rfl (by decide) (by decide)
  rw [h]
  rfl

end PagedInputStream

namespace PagedInputStream

/-- Fresh stream positioned before a single block (3-byte header plus
payload in one chunk), with an initial pending skip of p. -/
def freshBlock (isOrig : Bool) (payload : List Nat) (p : Int) : PagedStream :=
  { initialStream [encodeHeaderBytes isOrig payload.length ++ payload] with pendingSkip := p }

theorem rawReadFromHeader (caps : Caps) (w : Bool) (s : PagedStream) (payload : List Nat)
    (hdec : caps.decrypter = none)
    (hw : ¬ (w = true ∧ s.pendingSkip ≠ 0))
    (hob : s.outputBufferLength = 0)
    (hst : s.state = .HEADER)
    (hpos : s.inputPos = s.curChunk.length)
    (hch : s.input.chunks = [encodeHeaderBytes true payload.length ++ payload])
    (hL : payload.length < 2 ^ 23) (hne : payload ≠ []) :
    readOrSkip caps w s =
      .ok (some ⟨(payload.length : Int), payload⟩,
        { s with
          input := { chunks := [], byteCount := s.input.byteCount + (3 + payload.length),
                     seeks := s.input.seeks }
          curChunk := encodeHeaderBytes true payload.length ++ payload
          inputPos := 3 + payload.length
          state := .ORIGINAL
          remainingLength := 0
          bytesReturned := s.bytesReturned + (payload.length : Int)
          lastHeaderOffset := (s.input.byteCount : Int)
          bytesReturnedAtLastHeaderOffset := s.bytesReturned
          lastWindowSize := (payload.length : Int)
          outLoc := .input ((3 : Int) + (payload.length : Int))
          outputBufferLength := 0
          decryptionBuffer := none
          headerReads := s.headerReads + 1 }) := by
  have hd := encodeHeader_decode true payload.length hL
  have hne' : payload.length ≠ 0 := by
    cases payload with
    | nil => exact absurd rfl hne
    | cons a l => simp
  simp [readOrSkip, readHeader, readByte, readBuffer, ensureInput, finishRead,
    encodeHeaderBytes, hdec, hw, hob, hst, hpos, hch, hd, hne']
  omega

theorem readAtEnd (caps : Caps) (w : Bool) (s : PagedStream)
    (hw : ¬ (w = true ∧ s.pendingSkip ≠ 0))
    (hob : s.outputBufferLength = 0)
    (hhr : s.state = .HEADER ∨ s.remainingLength = 0)
    (hpos : s.inputPos = s.curChunk.length)
    (hch : s.input.chunks = []) :
    readOrSkip caps w s =
      .ok (none,
        { s with
          state := .END
          curChunk := []
          inputPos := 0
          remainingLength := 0
          lastHeaderOffset := (s.input.byteCount : Int) - 1
          bytesReturnedAtLastHeaderOffset := s.bytesReturned
          decryptionBuffer := none
          headerReads := s.headerReads + 1 }) := by
  simp [readOrSkip, readHeader, readByte, readBuffer, hw, hob, hhr, hpos, hch]

end PagedInputStream

namespace PagedInputStream

theorem compReadFromHeaderFull (caps : Caps) (d : Decompressor) (w : Bool)
    (s : PagedStream) (payload : List Nat)
    (hdec : caps.decrypter = none) (hdcp : caps.decompressor = some d)
    (hw : ¬ (w = true ∧ s.pendingSkip ≠ 0))
    (hob : s.outputBufferLength = 0)
    (hst : s.state = .HEADER)
    (hpos : s.inputPos = s.curChunk.length)
    (hch : s.input.chunks = [encodeHeaderBytes false payload.length ++ payload])
    (hbuf : s.outputBuffer = none)
    (hL : payload.length < 2 ^ 23) (hne : payload ≠ [])
    (hnel : ¬ (w = false ∧ (d.getDecompressedLength payload).2 = true ∧
      ((d.getDecompressedLength payload).1 : Int) ≤ s.pendingSkip)) :
    readOrSkip caps w s =
      .ok (some ⟨((d.decompress payload).length : Int), d.decompress payload⟩,
        { s with
          input := { chunks := [], byteCount := s.input.byteCount + (3 + payload.length),
                     seeks := s.input.seeks }
          curChunk := encodeHeaderBytes false payload.length ++ payload
          inputPos := 3 + payload.length
          state := .HEADER
          remainingLength := 0
          bytesReturned := s.bytesReturned + ((d.decompress payload).length : Int)
          lastHeaderOffset := (s.input.byteCount : Int)
          bytesReturnedAtLastHeaderOffset := s.bytesReturned
          lastWindowSize := ((d.decompress payload).length : Int)
          outLoc := .output ((d.decompress payload).length : Int)
          outputBufferLength := 0
          outputBuffer := some ⟨(d.getDecompressedLength payload).1, d.decompress payload⟩
          decryptionBuffer := none
          headerReads := s.headerReads + 1
          decompressCalls := s.decompressCalls + 1 }) := by
  have hd := encodeHeader_decode false payload.length hL
  have hne' : payload.length ≠ 0 := by
    cases payload with
    | nil => exact absurd rfl hne
    | cons a l => simp
  simp [readOrSkip, readHeader, readByte, readBuffer, ensureInput, finishRead,
    prepareOutputBuffer, encodeHeaderBytes, hdec, hdcp, hw, hob, hst, hpos, hch,
    hbuf, hd, hne', hnel]
  omega

theorem compReadFromHeaderElide (caps : Caps) (d : Decompressor)
    (s : PagedStream) (payload : List Nat)
    (hdec : caps.decrypter = none) (hdcp : caps.decompressor = some d)
    (hob : s.outputBufferLength = 0)
    (hst : s.state = .HEADER)
    (hpos : s.inputPos = s.curChunk.length)
    (hch : s.input.chunks = [encodeHeaderBytes false payload.length ++ payload])
    (hL : payload.length < 2 ^ 23) (hne : payload ≠ [])
    (hex : (d.getDecompressedLength payload).2 = true)
    (hle : ((d.getDecompressedLength payload).1 : Int) ≤ s.pendingSkip) :
    readOrSkip caps false s =
      .ok (some ⟨((d.getDecompressedLength payload).1 : Int), []⟩,
        { s with
          input := { chunks := [], byteCount := s.input.byteCount + (3 + payload.length),
                     seeks := s.input.seeks }
          curChunk := encodeHeaderBytes false payload.length ++ payload
          inputPos := 3 + payload.length
          state := .HEADER
          remainingLength := 0
          bytesReturned := s.bytesReturned + ((d.getDecompressedLength payload).1 : Int)
          lastHeaderOffset := (s.input.byteCount : Int)
          bytesReturnedAtLastHeaderOffset := s.bytesReturned
          lastWindowSize := ((d.getDecompressedLength payload).1 : Int)
          outLoc := .none
          outputBufferLength := 0
          decryptionBuffer := none
          headerReads := s.headerReads + 1 }) := by
  have hd := encodeHeader_decode false payload.length hL
  have hne' : payload.length ≠ 0 := by
    cases payload with
    | nil => exact absurd rfl hne
    | cons a l => simp
  simp [readOrSkip, readHeader, readByte, readBuffer, ensureInput, finishRead,
    encodeHeaderBytes, hdec, hdcp, hob, hst, hpos, hch, hd, hne', hex, hle]
  omega

end PagedInputStream

namespace PagedInputStream

theorem readOrSkip_replay (caps : Caps) (w : Bool) (s : PagedStream)
    (hw : ¬ (w = true ∧ s.pendingSkip ≠ 0))
    (hr : s.outputBufferLength ≠ 0) :
    readOrSkip caps w s =
      .ok (some ⟨(s.outputBufferLength : Int), viewAt s s.outLoc s.outputBufferLength⟩,
        { s with
          outLoc := s.outLoc.advance (s.outputBufferLength : Int),
          bytesReturned := s.bytesReturned + (s.outputBufferLength : Int),
          outputBufferLength := 0 }) := by
  unfold readOrSkip
  rw [if_neg hw, if_pos hr]

theorem freshBlock_pendingSkip (o : Bool) (pl : List Nat) (p : Int) :
    (freshBlock o pl p).pendingSkip = p := rfl

theorem freshBlock_chunks (o : Bool) (pl : List Nat) (p : Int) :
    (freshBlock o pl p).input.chunks = [encodeHeaderBytes o pl.length ++ pl] := rfl

theorem freshBlock_outputBuffer (o : Bool) (pl : List Nat) (p : Int) :
    (freshBlock o pl p).outputBuffer = none := rfl

theorem readZeroLenBlockError (caps : Caps) (w : Bool) (s : PagedStream) (isOrig : Bool)
    (hw : ¬ (w = true ∧ s.pendingSkip ≠ 0))
    (hob : s.outputBufferLength = 0)
    (hst : s.state = .HEADER)
    (hpos : s.inputPos = s.curChunk.length)
    (hch : s.input.chunks = [encodeHeaderBytes isOrig 0]) :
    readOrSkip caps w s = .error .readPastEof := by
  have hd := encodeHeader_decode isOrig 0 (by norm_num)
  simp [readOrSkip, readHeader, readByte, readBuffer, encodeHeaderBytes,
    hw, hob, hst, hpos, hch, hd]
  cases isOrig <;> simp

end PagedInputStream

namespace PagedInputStream

theorem rawScenario (c : List Nat) (k : Nat) (hne : c ≠ []) (hk : k ≤ c.length)
    (hL : c.length < 2 ^ 23) :
    nextBytes 2 2 capsNone (freshBlock true c (k : Int)) = .ok (c.drop k) := by
  have hRR : ∀ (w : Bool) (s : PagedStream),
      ¬ (w = true ∧ s.pendingSkip ≠ 0) →
      s.outputBufferLength = 0 →
      s.state = .HEADER →
      s.inputPos = s.curChunk.length →
      s.input.chunks = [encodeHeaderBytes true c.length ++ c] →
      readOrSkip capsNone w s =
        .ok (some ⟨(c.length : Int), c⟩,
          { s with
            input := { chunks := [], byteCount := s.input.byteCount + (3 + c.length),
                       seeks := s.input.seeks }
            curChunk := encodeHeaderBytes true c.length ++ c
            inputPos := 3 + c.length
            state := .ORIGINAL
            remainingLength := 0
            bytesReturned := s.bytesReturned + (c.length : Int)
            lastHeaderOffset := (s.input.byteCount : Int)
            bytesReturnedAtLastHeaderOffset := s.bytesReturned
            lastWindowSize := (c.length : Int)
            outLoc := .input ((3 : Int) + (c.length : Int))
            outputBufferLength := 0
            decryptionBuffer := none
            headerReads := s.headerReads + 1 }) :=
    fun w s h1 h2 h3 h4 h5 => rawReadFromHeader capsNone w s c rfl h1 h2 h3 h4 h5 hL hne
  have hplen : (encodeHeaderBytes true c.length ++ c).length = 3 + c.length := by
    simp [encodeHeaderBytes]
    omega
  by_cases hk0 : k = 0
  · subst hk0
    simp [nextBytes, Next, skipAllPending, hRR, readAtEnd, freshBlock, initialStream,
      hplen]
  · by_cases hkL : k = c.length
    · subst hkL
      have hkpos : 0 < c.length := Nat.pos_of_ne_zero hk0
      simp [nextBytes, Next, skipAllPending, hRR, readAtEnd, freshBlock, initialStream,
        hplen, List.drop_length, hkpos]
    · have hklt : k < c.length := lt_of_le_of_ne hk hkL
      have hkpos : 0 < k := Nat.pos_of_ne_zero hk0
      have hnn : ¬ ((c.length : Int) - (k : Int) < 0) := by omega
      have h03 : (c.length : Int) - (k : Int) ≤ 3 + (c.length : Int) := by omega
      have ht0 : ((c.length : Int) - (k : Int)).toNat ≠ 0 := by omega
      have hta : (3 + (c.length : Int) + -((c.length : Int) - (k : Int))).toNat
          = k + 1 + 1 + 1 := by omega
      have htb : (3 + (c.length : Int) - ((c.length : Int) - (k : Int))).toNat
          = k + 1 + 1 + 1 := by omega
      have htn : ((c.length : Int) - (k : Int)).toNat = c.length - k := by omega
      have htake : (c.drop k).take (c.length - k) = c.drop k :=
        List.take_of_length_le (by simp)
      have hA : (0 : Int) ≤ 3 + (c.length : Int) := by omega
      have hBf : (3 : Int) + (c.length : Int) ≤ (c.length : Int) + 1 + 1 + 1 := by omega
      have hsub0 : c.length - k ≠ 0 := by omega
      have htc : ((3 : Int) + (k : Int)).toNat = k + 1 + 1 + 1 := by omega
      have hdrop : (encodeHeaderBytes true c.length ++ c).drop (k + 1 + 1 + 1) = c.drop k := by
        simp [encodeHeaderBytes]
      simp [nextBytes, Next, skipAllPending, hRR, readAtEnd, readOrSkip_replay,
        BackUp, backUpTail, backUpRangeOk, OutLoc.advance, viewAt,
        freshBlock, initialStream, hplen, hklt, hkpos, hnn, h03, ht0, hta, htb, htn,
        htake, hA, hsub0, htc, hdrop]

end PagedInputStream

namespace PagedInputStream

theorem compScenario (c : List Nat) (j : Nat) (d : Decompressor) (hne : c ≠ [])
    (hj : j ≤ (d.decompress c).length) (hM : c.length < 2 ^ 23)
    (hex : (d.getDecompressedLength c).2 = true →
      (d.getDecompressedLength c).1 = (d.decompress c).length) :
    nextBytes 2 2 ⟨none, some d⟩ (freshBlock false c (j : Int)) =
      .ok ((d.decompress c).drop j) := by
  have hFull : ∀ (w : Bool) (s : PagedStream),
      ¬ (w = true ∧ s.pendingSkip ≠ 0) →
      s.outputBufferLength = 0 →
      s.state = .HEADER →
      s.inputPos = s.curChunk.length →
      s.input.chunks = [encodeHeaderBytes false c.length ++ c] →
      s.outputBuffer = none →
      ¬ (w = false ∧ (d.getDecompressedLength c).2 = true ∧
          ((d.getDecompressedLength c).1 : Int) ≤ s.pendingSkip) →
      readOrSkip ⟨none, some d⟩ w s =
        .ok (some ⟨((d.decompress c).length : Int), d.decompress c⟩,
          { s with
            input := { chunks := [], byteCount := s.input.byteCount + (3 + c.length),
                       seeks := s.input.seeks }
            curChunk := encodeHeaderBytes false c.length ++ c
            inputPos := 3 + c.length
            state := .HEADER
            remainingLength := 0
            bytesReturned := s.bytesReturned + ((d.decompress c).length : Int)
            lastHeaderOffset := (s.input.byteCount : Int)
            bytesReturnedAtLastHeaderOffset := s.bytesReturned
            lastWindowSize := ((d.decompress c).length : Int)
            outLoc := .output ((d.decompress c).length : Int)
            outputBufferLength := 0
            outputBuffer := some ⟨(d.getDecompressedLength c).1, d.decompress c⟩
            decryptionBuffer := none
            headerReads := s.headerReads + 1
            decompressCalls := s.decompressCalls + 1 }) :=
    fun w s h1 h2 h3 h4 h5 h6 h7 =>
      compReadFromHeaderFull ⟨none, some d⟩ d w s c rfl rfl h1 h2 h3 h4 h5 h6 hM hne h7
  have hElide : ∀ (s : PagedStream),
      s.outputBufferLength = 0 →
      s.state = .HEADER →
      s.inputPos = s.curChunk.length →
      s.input.chunks = [encodeHeaderBytes false c.length ++ c] →
      (d.getDecompressedLength c).2 = true →
      ((d.getDecompressedLength c).1 : Int) ≤ s.pendingSkip →
      readOrSkip ⟨none, some d⟩ false s =
        .ok (some ⟨((d.getDecompressedLength c).1 : Int), []⟩,
          { s with
            input := { chunks := [], byteCount := s.input.byteCount + (3 + c.length),
                       seeks := s.input.seeks }
            curChunk := encodeHeaderBytes false c.length ++ c
            inputPos := 3 + c.length
            state := .HEADER
            remainingLength := 0
            bytesReturned := s.bytesReturned + ((d.getDecompressedLength c).1 : Int)
            lastHeaderOffset := (s.input.byteCount : Int)
            bytesReturnedAtLastHeaderOffset := s.bytesReturned
            lastWindowSize := ((d.getDecompressedLength c).1 : Int)
            outLoc := .none
            outputBufferLength := 0
            decryptionBuffer := none
            headerReads := s.headerReads + 1 }) :=
    fun s h1 h2 h3 h4 h5 h6 =>
      compReadFromHeaderElide ⟨none, some d⟩ d s c rfl rfl h1 h2 h3 h4 hM hne h5 h6
  have hplen : (encodeHeaderBytes false c.length ++ c).length = 3 + c.length := by
    simp [encodeHeaderBytes]
    omega
  by_cases hj0 : j = 0
  · subst hj0
    simp [nextBytes, Next, skipAllPending, hFull, readAtEnd, freshBlock, initialStream,
      hplen]
  · have hjpos : 0 < j := Nat.pos_of_ne_zero hj0
    by_cases hel : (d.getDecompressedLength c).2 = true ∧
        ((d.getDecompressedLength c).1 : Int) ≤ (j : Int)
    · have hgd : (d.getDecompressedLength c).1 = (d.decompress c).length := hex hel.1
      have hjd : j = (d.decompress c).length := by
        have := hel.2
        omega
      simp [nextBytes, Next, skipAllPending, hElide, readAtEnd, freshBlock, initialStream,
        hplen, hel.1, hel.2, hjpos, hgd, ← hjd, List.drop_length]
    · have hnel : ¬ ((d.getDecompressedLength c).2 = true ∧
          ((d.getDecompressedLength c).1 : Int) ≤ (j : Int)) := hel
      by_cases hjd : j = (d.decompress c).length
      · subst hjd
        have h1 := hFull false
          { input := { chunks := [encodeHeaderBytes false c.length ++ c], byteCount := 0, seeks := [] },
            curChunk := [], inputPos := 0, state := State.HEADER, remainingLength := 0,
            pendingSkip := (((d.decompress c).length : Nat) : Int), bytesReturned := 0, lastHeaderOffset := 0,
            bytesReturnedAtLastHeaderOffset := 0, lastWindowSize := 0, outLoc := OutLoc.none,
            outputBufferLength := 0, outputBuffer := none, inputBufData := [], inputBufCap := 0,
            decryptionBuffer := none, headerReads := 0, decompressCalls := 0, decryptCalls := 0 }
          (by simp) rfl rfl (by simp) rfl rfl
          (by
            rintro ⟨h0, hx, hle⟩
            exact hnel ⟨hx, hle⟩)
        simp [nextBytes, Next, skipAllPending, h1, readAtEnd, freshBlock, initialStream,
          hplen, hjpos, List.drop_length]
      · have hjlt : j < (d.decompress c).length := lt_of_le_of_ne hj hjd
        have hnn : ¬ (((d.decompress c).length : Int) - (j : Int) < 0) := by omega
        have ht0 : (((d.decompress c).length : Int) - (j : Int)).toNat ≠ 0 := by omega
        have hta : (((d.decompress c).length : Int) + -(((d.decompress c).length : Int) - (j : Int))).toNat = j := by
          omega
        have htb : (((d.decompress c).length : Int) - (((d.decompress c).length : Int) - (j : Int))).toNat = j := by
          omega
        have htn : (((d.decompress c).length : Int) - (j : Int)).toNat
            = (d.decompress c).length - j := by omega
        have htake : ((d.decompress c).drop j).take ((d.decompress c).length - j)
            = (d.decompress c).drop j := List.take_of_length_le (by simp)
        have hsub0 : (d.decompress c).length - j ≠ 0 := by omega
        have h1 := hFull false
          { input := { chunks := [encodeHeaderBytes false c.length ++ c], byteCount := 0, seeks := [] },
            curChunk := [], inputPos := 0, state := State.HEADER, remainingLength := 0,
            pendingSkip := ((j : Nat) : Int), bytesReturned := 0, lastHeaderOffset := 0,
            bytesReturnedAtLastHeaderOffset := 0, lastWindowSize := 0, outLoc := OutLoc.none,
            outputBufferLength := 0, outputBuffer := none, inputBufData := [], inputBufCap := 0,
            decryptionBuffer := none, headerReads := 0, decompressCalls := 0, decryptCalls := 0 }
          (by simp) rfl rfl (by simp) rfl rfl
          (by
            rintro ⟨h0, hx, hle⟩
            exact hnel ⟨hx, hle⟩)
        simp [nextBytes, Next, skipAllPending, h1, readAtEnd, readOrSkip_replay,
          BackUp, backUpTail, OutLoc.advance, viewAt, freshBlock, initialStream,
          hplen, hjpos, hjlt, hnn, ht0, hta, htb, htn, htake, hsub0]

end PagedInputStream

namespace PagedInputStream

end PagedInputStream

namespace PagedInputStream

theorem emptyScenario (caps : Caps) (isOrig : Bool) (k : Nat) :
    nextBytes 2 2 caps (freshBlock isOrig [] (k : Int)) = .error .readPastEof := by
  have hZ : ∀ (w : Bool) (s : PagedStream),
      ¬ (w = true ∧ s.pendingSkip ≠ 0) →
      s.outputBufferLength = 0 →
      s.state = .HEADER →
      s.inputPos = s.curChunk.length →
      s.input.chunks = [encodeHeaderBytes isOrig 0] →
      readOrSkip caps w s = .error .readPastEof :=
    fun w s h1 h2 h3 h4 h5 => readZeroLenBlockError caps w s isOrig h1 h2 h3 h4 h5
  by_cases hk : k = 0
  · subst hk
    simp [nextBytes, Next, skipAllPending, hZ, freshBlock, initialStream]
  · have hkpos : 0 < k := Nat.pos_of_ne_zero hk
    simp [nextBytes, Next, skipAllPending, hZ, freshBlock, initialStream, hkpos]

/-- C4: skip/read equivalence. For a freshly opened stream holding one
block, skip(k) merely sets the pending skip; then reading the stream to
the end yields exactly the bytes obtained by reading without the skip and
discarding the first k — for every raw block content (first conjunct) and
for every compressed block and every decompressor capability whose exact
length report is truthful (second conjunct), for all k up to the block's
decoded length, including the empty- and whole-block edge cases. -/
theorem C4_skip_read_equivalence (content comp : List Nat) (k j : Nat) (d : Decompressor)
    (hk : k ≤ content.length) (hL : content.length < 2 ^ 23)
    (hj : j ≤ (d.decompress comp).length) (hM : comp.length < 2 ^ 23)
    (hexact : (d.getDecompressedLength comp).2 = true →
      (d.getDecompressedLength comp).1 = (d.decompress comp).length) :
    (skip (k : Int) (freshBlock true content 0) =
        .ok (true, freshBlock true content (k : Int)) ∧
      nextBytes 2 2 capsNone (freshBlock true content (k : Int)) =
        (nextBytes 2 2 capsNone (freshBlock true content 0)).map (List.drop k)) ∧
    (skip (j : Int) (freshBlock false comp 0) =
        .ok (true, freshBlock false comp (j : Int)) ∧
      nextBytes 2 2 ⟨none, some d⟩ (freshBlock false comp (j : Int)) =
        (nextBytes 2 2 ⟨none, some d⟩ (freshBlock false comp 0)).map (List.drop j)) := by
  have hknn : ¬ ((k : Int) < 0) := by omega
  have hjnn : ¬ ((j : Int) < 0) := by omega
  refine ⟨⟨?_, ?_⟩, ⟨?_, ?_⟩⟩
  · simp [skip, freshBlock, initialStream, hknn]
  · by_cases hc : content = []
    · subst hc
      have h0 : k = 0 := Nat.le_zero.mp hk
      subst h0
      have he := emptyScenario capsNone true 0
      rw [Nat.cast_zero] at he
      rw [he]
      rfl
    · have hz := rawScenario content 0 hc (Nat.zero_le _) hL
      rw [Nat.cast_zero] at hz
      rw [rawScenario content k hc hk hL, hz]
      simp [Except.map]
  · simp [skip, freshBlock, initialStream, hjnn]
  · by_cases hc : comp = []
    · subst hc
      have he := emptyScenario ⟨none, some d⟩ false 0
      rw [Nat.cast_zero] at he
      rw [emptyScenario ⟨none, some d⟩ false j, he]
      rfl
    · have hz := compScenario comp 0 d hc (Nat.zero_le _) hM hexact
      rw [Nat.cast_zero] at hz
      rw [compScenario comp j d hc hj hM hexact, hz]
      simp [Except.map]

end PagedInputStream

namespace PagedInputStream

/-- Doubling decompressor for the C4 witness (exact length report). -/
def c4d : Decompressor := ⟨fun l => (2 * l.length, true), fun l => l ++ l⟩

theorem C4_skip_read_equivalence_witness :
    nextBytes 2 2 capsNone (freshBlock true [7, 8, 9] ((2 : Nat) : Int)) =
      (nextBytes 2 2 capsNone (freshBlock true [7, 8, 9] 0)).map (List.drop 2) ∧
    nextBytes 2 2 ⟨none, some c4d⟩ (freshBlock false [1, 2] ((3 : Nat) : Int)) =
      (nextBytes 2 2 ⟨none, some c4d⟩ (freshBlock false [1, 2] 0)).map (List.drop 3) := by
  have h := C4_skip_read_equivalence [7, 8, 9] [1, 2] 2 3 c4d (by decide) (by decide)
    (by decide) (by decide) (fun _ => rfl)
  exact ⟨h.1.2, h.2.2⟩

end PagedInputStream
